import Mathlib

/-!
Shallow embedding of `assignment_submissions_staging.py`, the submission
aggregation pipeline: fetching pull requests, locating CI workflow runs,
selecting a canonical best run, assembling submission records, and building
the rows handed to the persistence sink.

JSON values fetched from the hosting API are modelled as Lean structures
whose nullable fields are `Option`s; Python dictionaries keyed by PR number
are modelled as insertion-ordered association lists with an
update-in-place-or-append insert (`dictInsert`), matching `dict` semantics.
HTTP transport is modelled as an oracle (`Transport`): responses are
determined by the request parameters, and a raised `RequestException` is an
`Except.error`.  In-place mutation of the caller's `assignment_data`
dictionary is modelled by explicit state passing: the final state is
returned alongside the success flag.
-/

namespace Staging

/-- Python truthiness of a nullable integer (`if not x` is `false` exactly
for `None` and `0`). -/
def natTruthy : Option Nat → Bool
  | none => false
  | some n => n != 0

/-- Python truthiness of a nullable string (`if not x` is `false` exactly
for `None` and the empty string). -/
def strTruthy : Option String → Bool
  | none => false
  | some s => s != ""

/-- A workflow run as seen by `process_workflow_runs`: the `id` field of the
listing entry together with the detail fields returned by
`fetch_workflow_run_id` for that id (`status`, `conclusion`, timestamps,
origin repository).  `conclusion` is nullable: the API reports `null` until
the run completes. -/
structure WorkflowRun where
  id : Option Nat
  run_number : Nat
  event : String
  status : String
  conclusion : Option String
  created_at : String
  updated_at : String
  html_url : String
  head_repository_full_name : String
  fork : Bool
deriving DecidableEq

/-- The record dictionary that `process_workflow_runs` builds from a chosen
run (both the `recent_successful_run` and the `most_recent_run` literals
have exactly these keys). -/
structure RunRecord where
  run_id : Nat
  run_number : Nat
  event : String
  status : String
  conclusion : Option String
  created_at : String
  updated_at : String
  workflow_url : String
  head_repository : String
  fork : Bool
deriving DecidableEq

/-- Build the record dictionary from a run, as both branches of
`process_workflow_runs` do (`run_id` is the listing id, which the guard has
established to be truthy). -/
def mkRunRecord (w : WorkflowRun) : RunRecord where
  run_id := w.id.getD 0
  run_number := w.run_number
  event := w.event
  status := w.status
  conclusion := w.conclusion
  created_at := w.created_at
  updated_at := w.updated_at
  workflow_url := w.html_url
  head_repository := w.head_repository_full_name
  fork := w.fork

/-- The test `run_status == 'completed'` together with the nested test
`conclusion == 'success'` from `process_workflow_runs`. -/
def successCond (w : WorkflowRun) : Bool :=
  w.status == "completed" && w.conclusion == some "success"

/-- One candidate update of a best-so-far slot: replace when the slot is
empty (`if not recent_successful_run`) or when the new run's `updated_at`
is strictly greater in Python string order (lexicographic by code point,
which is `String.lt`). -/
def updateBest (cur : Option RunRecord) (w : WorkflowRun) : Option RunRecord :=
  match cur with
  | none => some (mkRunRecord w)
  | some r => if r.updated_at < w.updated_at then some (mkRunRecord w) else some r

/-- One iteration of the `for workflow_run in workflow_runs` loop: runs with
a falsy id are skipped (`if not run_id: continue`); otherwise the successful
slot is updated only under `successCond` and the most-recent slot is updated
unconditionally. -/
def processStep (s : Option RunRecord × Option RunRecord) (w : WorkflowRun) :
    Option RunRecord × Option RunRecord :=
  if natTruthy w.id then
    ((if successCond w then updateBest s.1 w else s.1), updateBest s.2 w)
  else s

/-- `process_workflow_runs`: fold the loop over the run list starting from
two empty slots, then `best_run = recent_successful_run or most_recent_run`. -/
def process_workflow_runs (runs : List WorkflowRun) : Option RunRecord :=
  let s := runs.foldl processStep (none, none)
  s.1 <|> s.2

/-- One step of the spec-side selection (§4.4): replace the best-so-far
only on a strictly greater `updated_at`. -/
def specStep (a : Option WorkflowRun) (w : WorkflowRun) : Option WorkflowRun :=
  match a with
  | none => some w
  | some r => if r.updated_at < w.updated_at then some w else some r

/-- Selection written from the spec's words (§4.4): the member with the
lexicographically greatest `updated_at`, ties keeping the first one
encountered in input order. -/
def bestBySpec (runs : List WorkflowRun) : Option WorkflowRun :=
  runs.foldl specStep none

/-- Nonempty form of the spec-side selection: best of `r :: l`. -/
def best1 (r : WorkflowRun) : List WorkflowRun → WorkflowRun
  | [] => r
  | w :: l => best1 (if r.updated_at < w.updated_at then w else r) l

/-- `w` is the first element of `l` attaining the (lexicographically)
greatest `updated_at`: every element strictly before it is strictly
smaller, and no element of `l` is strictly greater. -/
def firstMax (l : List WorkflowRun) (w : WorkflowRun) : Prop :=
  (∃ l₁ l₂, l = l₁ ++ w :: l₂ ∧ ∀ v ∈ l₁, v.updated_at < w.updated_at) ∧
    ∀ v ∈ l, v.updated_at ≤ w.updated_at

/-- First component of `processStep` in isolation. -/
def fstStep (a : Option RunRecord) (w : WorkflowRun) : Option RunRecord :=
  if natTruthy w.id && successCond w then updateBest a w else a

/-- Second component of `processStep` in isolation. -/
def sndStep (a : Option RunRecord) (w : WorkflowRun) : Option RunRecord :=
  if natTruthy w.id then updateBest a w else a

/-- A raw pull-request entry as consumed by the loop in
`retrieve_assignment_submission_data`.  `number` and `head.sha` are
nullable (their absence makes the entry malformed); the remaining accessed
fields are the ones the loop reads. -/
structure PullEntry where
  number : Option Nat
  pr_id : Nat
  state : String
  html_url : String
  user_login : String
  created_at : String
  head_sha : Option String
deriving DecidableEq

/-- The per-PR dictionary stored under `assignment_data['pull_requests']`.
`workflow_run` is `none` for the empty dict `{}` and `some` once the best
run has been written.  `github_username` is kept nullable because
`add_assignment_submissions_records` reads it back with `.get`. -/
structure PullRequestData where
  pr_id : Nat
  state : String
  submission_link : String
  github_username : Option String
  submission_time : String
  head_sha : String
  workflow_run : Option RunRecord
deriving DecidableEq

/-- The record first inserted for a pull request (with the empty
`workflow_run` dict), before any best run is written. -/
def mkPRData (e : PullEntry) (sha : String) : PullRequestData where
  pr_id := e.pr_id
  state := e.state
  submission_link := e.html_url
  github_username := some e.user_login
  submission_time := e.created_at
  head_sha := sha
  workflow_run := none

/-- Python `dict` assignment `d[k] = v` on an insertion-ordered map:
replace in place when the key exists, else append. -/
def dictInsert (k : Nat) (v : α) : List (Nat × α) → List (Nat × α)
  | [] => [(k, v)]
  | (k', v') :: rest =>
    if k' = k then (k, v) :: rest else (k', v') :: dictInsert k v rest

/-- Number of entries of an insertion-ordered map carrying key `n`. -/
def countKey (n : Nat) : List (Nat × α) → Nat
  | [] => 0
  | (k, _) :: rest => (if k = n then 1 else 0) + countKey n rest

/-- HTTP transport oracle for one assignment: the pull-request listing
(`fetch_pull_requests`), and, per `(pr_number, head_sha)` request, the
workflow runs for that head commit with their details already resolved
(`fetch_workflow_runs` plus the `fetch_workflow_run_id` calls made by
`process_workflow_runs`).  `Except.error` is a raised `RequestException`
anywhere inside that request's processing. -/
structure Transport where
  pulls : Except Unit (List PullEntry)
  runs : Nat → String → Except Unit (List WorkflowRun)

/-- Body of the `for pull_request in pulls_json` loop of
`retrieve_assignment_submission_data` for one raw entry, over the state of
the mutated `assignment_data['pull_requests']` dict.  An entry with a falsy
number or head SHA is skipped (`continue`); otherwise its record is
inserted with the empty `workflow_run` dict, the runs for its head SHA are
fetched and processed, and a truthy best run is then written into the
record.  `Except.error` is the `RequestException` propagating out of the
loop: the state built so far, paired with the `False` return value. -/
def retrieveStep (t : Transport) (e : PullEntry)
    (acc : List (Nat × PullRequestData)) :
    Except (List (Nat × PullRequestData) × Bool) (List (Nat × PullRequestData)) :=
  match e.number, e.head_sha with
  | some n, some sha =>
    if n ≠ 0 ∧ sha ≠ "" then
      let acc1 := dictInsert n (mkPRData e sha) acc
      match t.runs n sha with
      | .error _ => .error (acc1, false)
      | .ok wruns =>
        match process_workflow_runs wruns with
        | some best =>
          .ok (dictInsert n { mkPRData e sha with workflow_run := some best } acc1)
        | none => .ok acc1
    else .ok acc
  | _, _ => .ok acc

/-- The `for pull_request in pulls_json` loop itself: run `retrieveStep` on
each entry in order; a propagated `RequestException` abandons the remaining
entries and yields the state built so far with the failure flag. -/
def retrieveGo (t : Transport) :
    List PullEntry → List (Nat × PullRequestData) →
      List (Nat × PullRequestData) × Bool
  | [], acc => (acc, true)
  | e :: rest, acc =>
    match retrieveStep t e acc with
    | .error res => res
    | .ok acc' => retrieveGo t rest acc'

/-- A raw entry the loop treats as malformed: null or falsy PR number, or
null or falsy head SHA. -/
def malformedEntry (e : PullEntry) : Prop :=
  e.number = none ∨ e.number = some 0 ∨ e.head_sha = none ∨ e.head_sha = some ""

/-- Lookup of the value stored under key `n` in an insertion-ordered map. -/
def lookupKey (n : Nat) : List (Nat × α) → Option α
  | [] => none
  | (k, v) :: rest => if k = n then some v else lookupKey n rest

/-- `retrieve_assignment_submission_data` for one assignment whose stored
`pull_requests` dict starts empty: returns the final state of that dict
together with the success flag (`False` is returned exactly when a
`RequestException` was caught; the caller's dict keeps whatever was built
before the failure). -/
def retrieve_assignment_submission_data (t : Transport) :
    List (Nat × PullRequestData) × Bool :=
  match t.pulls with
  | .error _ => ([], false)
  | .ok l => retrieveGo t l []

/-- One value row built by `add_assignment_submissions_records` for the
staging insert.  `user_id` is `none` for the SQL literal `null` (user not
found). -/
structure ValueRow where
  user_id : Option Nat
  assignment_id : Nat
  submission_link : String
  passes_preliminary_checks : Bool
  submission_time : String
  pull_request_data : PullRequestData
  github_username : String
  pr_state : String
deriving DecidableEq

/-- The check `workflow_run.get('conclusion') == 'success'` from
`add_assignment_submissions_records` (line 223): only the conclusion of the
stored run is consulted, and the empty run dict yields `None`. -/
def passesCheck (wr : Option RunRecord) : Bool :=
  wr.bind RunRecord.conclusion == some "success"

/-- The row appended for one pull request whose `github_username` `u` is
truthy, given the user-id lookup result. -/
def mkValueRow (userLookup : String → Option Nat) (aid : Nat)
    (d : PullRequestData) (u : String) : ValueRow where
  user_id := userLookup u
  assignment_id := aid
  submission_link := d.submission_link
  passes_preliminary_checks := passesCheck d.workflow_run
  submission_time := d.submission_time
  pull_request_data := d
  github_username := u
  pr_state := d.state

/-- Loop body of `add_assignment_submissions_records` for one
`(pr_number, pull_request_data)` item: a row is appended only under
`if github_username:`, i.e. when the stored username is truthy. -/
def addStep (userLookup : String → Option Nat) (aid : Nat)
    (vs : List ValueRow) (p : Nat × PullRequestData) : List ValueRow :=
  match p.2.github_username with
  | some u => if u ≠ "" then vs ++ [mkValueRow userLookup aid p.2 u] else vs
  | none => vs

/-- `add_assignment_submissions_records`: fold over the `pull_requests`
dict in insertion order, appending a row only when `github_username` is
truthy (the database lookup is the pure `userLookup` oracle, so the
swallowed-exception branch never fires). -/
def add_assignment_submissions_records (userLookup : String → Option Nat)
    (aid : Nat) (prs : List (Nat × PullRequestData)) : List ValueRow :=
  prs.foldl (addStep userLookup aid) []

/-- An assignment row as returned by `query_assignments` (org and repo are
read back with `.get` and truthiness-tested in `main`). -/
structure AssignmentData where
  assignment_title : String
  assignment_link : String
  github_org : Option String
  repo_name : Option String
deriving DecidableEq

/-- The value rows one assignment contributes in `main`: none when
`retrieve_assignment_submission_data` reported failure, else the rows built
from its final `pull_requests` dict. -/
def assignmentValues (tFor : Nat → Transport) (lk : String → Option Nat)
    (aid : Nat) : List ValueRow :=
  let r := retrieve_assignment_submission_data (tFor aid)
  if r.2 then add_assignment_submissions_records lk aid r.1 else []

/-- The `for assignment_id, assignment_data in assignments.items()` loop of
`main` (with `json_path` empty): an assignment with a falsy org or repo
raises `ValueError`, which nothing catches, so the whole loop aborts with
that error; otherwise the assignment's rows are accumulated and the loop
continues. -/
def mainLoop (tFor : Nat → Transport) (lk : String → Option Nat) :
    List (Nat × AssignmentData) → Except String (List ValueRow)
  | [] => .ok []
  | (aid, ad) :: rest =>
    if strTruthy ad.github_org && strTruthy ad.repo_name then
      match mainLoop tFor lk rest with
      | .ok vs => .ok (assignmentValues tFor lk aid ++ vs)
      | .error e => .error e
    else .error "Missing GitHub organization or repository name."

/-- The pagination loop of `fetch_pull_requests` over the sequence of HTTP
responses it receives: each response is a page body plus whether a link
header with a next relation was present.  An empty body stops before
extending; a missing next indicator stops after extending. -/
def fetch_pull_requests_model : List (List α × Bool) → List α
  | [] => []
  | (body, hasNext) :: rest =>
    if body.isEmpty then []
    else body ++ (if hasNext then fetch_pull_requests_model rest else [])

/-- The response sequence of a mocked paginated resource holding `items`
split into pages of size `sz`: every page but the last is full and carries
a next indicator; the last page carries none.  An empty resource serves one
empty page. -/
def mkPages (sz : Nat) (items : List α) : List (List α × Bool) :=
  if sz = 0 ∨ items.length ≤ sz then [(items, false)]
  else (items.take sz, true) :: mkPages sz (items.drop sz)
termination_by items.length
decreasing_by
  simp only [List.length_drop]
  omega

/-- Concrete workflow-run sample used to exercise the theorems. -/
def sampleRun (i : Nat) (st : String) (cl : Option String) (u : String) :
    WorkflowRun where
  id := some i
  run_number := i
  event := "push"
  status := st
  conclusion := cl
  created_at := u
  updated_at := u
  html_url := "https://example/run"
  head_repository_full_name := "org/repo"
  fork := false

/-- Concrete pull-request sample used to exercise the theorems. -/
def samplePull (n : Nat) (sha : String) : PullEntry where
  number := some n
  pr_id := 100 + n
  state := "open"
  html_url := "https://example/pr"
  user_login := "student"
  created_at := "2024-01-01T00:00:00Z"
  head_sha := some sha

/-- Concrete user-id lookup oracle used to exercise the theorems. -/
def sampleLookup : String → Option Nat := fun _ => some 42

/-- Transport whose single pull request's head commit carries one workflow
run that reports `conclusion = success` while still `in_progress`. -/
def inProgressTransport : Transport where
  pulls := .ok [samplePull 1 "abc"]
  runs := fun _ _ => .ok [sampleRun 5 "in_progress" (some "success") "2024-02-02T00:00:00Z"]

/-- Transport whose single pull request's head commit carries one
completed, successful workflow run. -/
def goodTransport : Transport where
  pulls := .ok [samplePull 2 "def"]
  runs := fun _ _ => .ok [sampleRun 9 "completed" (some "success") "2024-03-03T00:00:00Z"]

/-- Transport that fails with a `RequestException` on the workflow-run
request of its single pull request. -/
def failTransport : Transport where
  pulls := .ok [samplePull 3 "ghi"]
  runs := fun _ _ => .error ()

/-- Assignment row with a null organization. -/
def badAssignment : AssignmentData where
  assignment_title := "t"
  assignment_link := "l"
  github_org := none
  repo_name := some "repo"

/-- Assignment row with truthy organization and repository. -/
def goodAssignment : AssignmentData where
  assignment_title := "t"
  assignment_link := "l"
  github_org := some "org"
  repo_name := some "repo"

/-- Per-assignment transport oracle: assignment 1 hits the failing
transport, every other assignment the good one. -/
def mixedTFor : Nat → Transport :=
  fun aid => if aid = 1 then failTransport else goodTransport

/-- Concrete pull-request record sample (empty workflow run). -/
def samplePRData : PullRequestData := mkPRData (samplePull 1 "abc") "abc"

/-- Per-assignment transport oracle where every assignment succeeds. -/
def goodTFor : Nat → Transport := fun _ => goodTransport

/-- Raw pull-request entry with a null head SHA. -/
def noShaPull : PullEntry where
  number := some 4
  pr_id := 104
  state := "open"
  html_url := "https://example/pr"
  user_login := "student"
  created_at := "2024-01-01T00:00:00Z"
  head_sha := none

/-- Workflow-runs oracle that always answers with an empty run list. -/
def emptyRunsOracle : Nat → String → Except Unit (List WorkflowRun) :=
  fun _ _ => .ok []

/-- Transport serving one malformed pull request. -/
def noShaTransport : Transport where
  pulls := .ok [noShaPull]
  runs := emptyRunsOracle

/-- Transport serving no pull requests at all. -/
def emptyPullsTransport : Transport where
  pulls := .ok []
  runs := emptyRunsOracle

/-- Transport whose single pull request's head commit has zero locatable
workflow runs. -/
def noRunsTransport : Transport where
  pulls := .ok [samplePull 1 "abc"]
  runs := emptyRunsOracle

/-- Transport serving two pull requests: the first head commit has no runs,
the workflow-run request for the second raises. -/
def midFailTransport : Transport where
  pulls := .ok [samplePull 1 "abc", samplePull 2 "xyz"]
  runs := fun n _ => if n = 1 then .ok [] else .error ()

end Staging

namespace Staging

theorem specStep_some (r w : WorkflowRun) :
    specStep (some r) w = some (if r.updated_at < w.updated_at then w else r) :=
  (apply_ite some _ _ _).symm

theorem foldl_specStep_some (l : List WorkflowRun) :
    ∀ r, l.foldl specStep (some r) = some (best1 r l) := by
  induction l with
  | nil => intro r; rfl
  | cons w l ih =>
    intro r
    rw [List.foldl_cons, specStep_some, ih]
    rfl

theorem bestBySpec_cons (x : WorkflowRun) (xs : List WorkflowRun) :
    bestBySpec (x :: xs) = some (best1 x xs) := by
  show xs.foldl specStep (specStep none x) = _
  exact foldl_specStep_some xs x

theorem bestBySpec_ne_nil (l : List WorkflowRun) (h : l ≠ []) :
    ∃ w, bestBySpec l = some w :=
  match l, h with
  | x :: xs, _ => ⟨best1 x xs, bestBySpec_cons x xs⟩

theorem best1_cons (r w : WorkflowRun) (l : List WorkflowRun) :
    best1 r (w :: l) = best1 (if r.updated_at < w.updated_at then w else r) l :=
  rfl

theorem best1_init_le (l : List WorkflowRun) :
    ∀ r, r.updated_at ≤ (best1 r l).updated_at := by
  induction l with
  | nil => intro r; exact le_refl _
  | cons w l ih =>
    intro r
    rw [best1_cons]
    by_cases h : r.updated_at < w.updated_at
    · rw [if_pos h]
      exact le_of_lt (lt_of_lt_of_le h (ih w))
    · rw [if_neg h]
      exact ih r

theorem best1_mem_le (l : List WorkflowRun) :
    ∀ r, ∀ v ∈ l, v.updated_at ≤ (best1 r l).updated_at := by
  induction l with
  | nil => intro r v hv; cases hv
  | cons w l ih =>
    intro r v hv
    rw [best1_cons]
    rcases List.mem_cons.mp hv with h | h
    · subst h
      by_cases hc : r.updated_at < v.updated_at
      · rw [if_pos hc]
        exact best1_init_le l v
      · rw [if_neg hc]
        exact le_trans (not_lt.mp hc) (best1_init_le l r)
    · by_cases hc : r.updated_at < w.updated_at
      · rw [if_pos hc]; exact ih w v h
      · rw [if_neg hc]; exact ih r v h

theorem best1_split (l : List WorkflowRun) :
    ∀ r, ∃ l₁ l₂, r :: l = l₁ ++ (best1 r l) :: l₂ ∧
      ∀ v ∈ l₁, v.updated_at < (best1 r l).updated_at := by
  induction l with
  | nil => intro r; exact ⟨[], [], rfl, by simp⟩
  | cons w l ih =>
    intro r
    rw [best1_cons]
    by_cases hc : r.updated_at < w.updated_at
    · rw [if_pos hc]
      obtain ⟨l₁, l₂, heq, hlt⟩ := ih w
      refine ⟨r :: l₁, l₂, ?_, ?_⟩
      · rw [List.cons_append, ← heq]
      · intro v hv
        rcases List.mem_cons.mp hv with h | h
        · subst h
          exact lt_of_lt_of_le hc (best1_init_le l w)
        · exact hlt v h
    · rw [if_neg hc]
      obtain ⟨l₁, l₂, heq, hlt⟩ := ih r
      cases l₁ with
      | nil =>
        simp only [List.nil_append] at heq
        injection heq with h1 h2
        refine ⟨[], w :: l, ?_, by simp⟩
        rw [List.nil_append, ← h1]
      | cons a l₁' =>
        simp only [List.cons_append] at heq
        injection heq with h1 h2
        subst h1
        have hrb : r.updated_at < (best1 r l).updated_at :=
          hlt r (List.mem_cons_self _ _)
        refine ⟨r :: w :: l₁', l₂, ?_, ?_⟩
        · rw [List.cons_append, List.cons_append, ← h2]
        · intro v hv
          rcases List.mem_cons.mp hv with h | h
          · subst h; exact hrb
          · rcases List.mem_cons.mp h with h' | h'
            · subst h'
              exact lt_of_le_of_lt (not_lt.mp hc) hrb
            · exact hlt v (List.mem_cons_of_mem _ h')

theorem bestBySpec_firstMax (l : List WorkflowRun) (w : WorkflowRun)
    (h : bestBySpec l = some w) : firstMax l w := by
  cases l with
  | nil => cases h
  | cons x xs =>
    rw [bestBySpec_cons] at h
    injection h with h
    subst h
    constructor
    · exact best1_split xs x
    · intro v hv
      rcases List.mem_cons.mp hv with h | h
      · rw [h]; exact best1_init_le xs x
      · exact best1_mem_le xs x v h

theorem processStep_eq (s : Option RunRecord × Option RunRecord)
    (w : WorkflowRun) : processStep s w = (fstStep s.1 w, sndStep s.2 w) := by
  unfold processStep fstStep sndStep
  cases hid : natTruthy w.id <;> cases hsc : successCond w <;> simp [hid, hsc]

theorem foldl_processStep (l : List WorkflowRun) :
    ∀ x y, l.foldl processStep (x, y) = (l.foldl fstStep x, l.foldl sndStep y) := by
  induction l with
  | nil => intro x y; rfl
  | cons w l ih =>
    intro x y
    rw [List.foldl_cons, processStep_eq, ih, List.foldl_cons, List.foldl_cons]

theorem foldl_guard {α β : Type} (p : α → Bool) (f : β → α → β) (l : List α) :
    ∀ x, l.foldl (fun a w => if p w then f a w else a) x = (l.filter p).foldl f x := by
  induction l with
  | nil => intro x; rfl
  | cons w l ih =>
    intro x
    rw [List.foldl_cons, List.filter_cons]
    by_cases h : p w
    · rw [if_pos h, if_pos h, List.foldl_cons, ih]
    · rw [if_neg h, if_neg h, ih]

theorem updateBest_map (a : Option WorkflowRun) (w : WorkflowRun) :
    updateBest (a.map mkRunRecord) w = (specStep a w).map mkRunRecord := by
  cases a with
  | none => rfl
  | some r =>
    by_cases h : r.updated_at < w.updated_at <;>
      simp [updateBest, specStep, h, mkRunRecord]

theorem foldl_updateBest_map (l : List WorkflowRun) :
    ∀ a : Option WorkflowRun,
      l.foldl updateBest (a.map mkRunRecord) = (l.foldl specStep a).map mkRunRecord := by
  induction l with
  | nil => intro a; rfl
  | cons w l ih =>
    intro a
    rw [List.foldl_cons, updateBest_map, ih, List.foldl_cons]

theorem process_characterization (runs : List WorkflowRun)
    (h1 : ∀ w ∈ runs, natTruthy w.id = true) :
    process_workflow_runs runs =
      ((bestBySpec (runs.filter successCond)).map mkRunRecord <|>
        (bestBySpec runs).map mkRunRecord) := by
  unfold process_workflow_runs
  rw [foldl_processStep]
  have hfst : runs.foldl fstStep none =
      (bestBySpec (runs.filter successCond)).map mkRunRecord := by
    have e1 : runs.foldl fstStep none
        = (runs.filter (fun w => natTruthy w.id && successCond w)).foldl updateBest none :=
      foldl_guard (fun (w : WorkflowRun) => natTruthy w.id && successCond w)
        updateBest runs none
    have e2 : runs.filter (fun w => natTruthy w.id && successCond w)
        = runs.filter successCond :=
      List.filter_congr (fun w hw => by rw [h1 w hw, Bool.true_and])
    rw [e1, e2]
    exact foldl_updateBest_map (runs.filter successCond) none
  have hsnd : runs.foldl sndStep none = (bestBySpec runs).map mkRunRecord := by
    have e1 : runs.foldl sndStep none
        = (runs.filter (fun w => natTruthy w.id)).foldl updateBest none :=
      foldl_guard (fun (w : WorkflowRun) => natTruthy w.id) updateBest runs none
    have e2 : runs.filter (fun w => natTruthy w.id) = runs :=
      List.filter_eq_self.mpr h1
    rw [e1, e2]
    exact foldl_updateBest_map runs none
  rw [hfst, hsnd]

/-- C1: when the input holds at least one completed run with conclusion
`success`, `process_workflow_runs` returns the record built from the
completed-and-successful run with the lexicographically greatest
`updated_at`, keeping the first one encountered on ties (the run details,
per §4.3, all carry a truthy run id). -/
theorem C1_selects_latest_successful (runs : List WorkflowRun)
    (h1 : ∀ w ∈ runs, natTruthy w.id = true)
    (h2 : ∃ w ∈ runs, successCond w = true) :
    ∃ w, firstMax (runs.filter successCond) w ∧ successCond w = true ∧
      process_workflow_runs runs = some (mkRunRecord w) := by
  obtain ⟨v, hv, hvs⟩ := h2
  have hne : runs.filter successCond ≠ [] := by
    intro h
    exact (List.filter_eq_nil_iff.mp h v hv) hvs
  obtain ⟨w, hw⟩ := bestBySpec_ne_nil _ hne
  have hfm := bestBySpec_firstMax _ _ hw
  refine ⟨w, hfm, ?_, ?_⟩
  · have hmem : w ∈ runs.filter successCond := by
      obtain ⟨⟨l₁, l₂, heq, _⟩, _⟩ := hfm
      rw [heq]
      exact List.mem_append_right _ (List.mem_cons_self _ _)
    exact (List.mem_filter.mp hmem).2
  · rw [process_characterization runs h1, hw]
    rfl

/-- Closed instance of `C1_selects_latest_successful` on the three-run
input of the spec's P2 example. -/
theorem C1_selects_latest_successful_witness :
    ∃ w, firstMax
        (([sampleRun 1 "completed" (some "success") "2024-01-01T10:00:00Z",
           sampleRun 2 "completed" (some "failure") "2024-01-02T10:00:00Z",
           sampleRun 3 "completed" (some "success") "2024-01-03T10:00:00Z"]).filter successCond) w ∧
      successCond w = true ∧
      process_workflow_runs
        [sampleRun 1 "completed" (some "success") "2024-01-01T10:00:00Z",
         sampleRun 2 "completed" (some "failure") "2024-01-02T10:00:00Z",
         sampleRun 3 "completed" (some "success") "2024-01-03T10:00:00Z"] = some (mkRunRecord w) :=
  C1_selects_latest_successful _ (by decide) (by decide)

/-- C2: when no run is both completed and successful,
`process_workflow_runs` falls back to the run of the entire input with the
lexicographically greatest `updated_at` (first encountered on ties), and on
the empty input it returns `none`. -/
theorem C2_fallback_most_recent (runs : List WorkflowRun)
    (h1 : ∀ w ∈ runs, natTruthy w.id = true)
    (h2 : ∀ w ∈ runs, successCond w = false) :
    (runs = [] → process_workflow_runs runs = none) ∧
    (runs ≠ [] → ∃ w, firstMax runs w ∧
      process_workflow_runs runs = some (mkRunRecord w)) := by
  have hfilter : runs.filter successCond = [] :=
    List.filter_eq_nil_iff.mpr (fun a ha => by simp [h2 a ha])
  have hchar := process_characterization runs h1
  rw [hfilter] at hchar
  constructor
  · intro h; subst h; rfl
  · intro hne
    obtain ⟨w, hw⟩ := bestBySpec_ne_nil runs hne
    refine ⟨w, bestBySpec_firstMax _ _ hw, ?_⟩
    rw [hchar, hw]
    rfl

/-- Closed instance of `C2_fallback_most_recent` on a two-run input with no
successful run. -/
theorem C2_fallback_most_recent_witness :
    ([sampleRun 1 "completed" (some "failure") "2024-01-01T10:00:00Z",
      sampleRun 2 "in_progress" none "2024-01-02T10:00:00Z"] = ([] : List WorkflowRun) →
      process_workflow_runs
        [sampleRun 1 "completed" (some "failure") "2024-01-01T10:00:00Z",
         sampleRun 2 "in_progress" none "2024-01-02T10:00:00Z"] = none) ∧
    ([sampleRun 1 "completed" (some "failure") "2024-01-01T10:00:00Z",
      sampleRun 2 "in_progress" none "2024-01-02T10:00:00Z"] ≠ ([] : List WorkflowRun) →
      ∃ w, firstMax
          [sampleRun 1 "completed" (some "failure") "2024-01-01T10:00:00Z",
           sampleRun 2 "in_progress" none "2024-01-02T10:00:00Z"] w ∧
        process_workflow_runs
          [sampleRun 1 "completed" (some "failure") "2024-01-01T10:00:00Z",
           sampleRun 2 "in_progress" none "2024-01-02T10:00:00Z"] = some (mkRunRecord w)) :=
  C2_fallback_most_recent _ (by decide) (by decide)

end Staging

namespace Staging

theorem addStep_eq (lk : String → Option Nat) (aid : Nat)
    (vs : List ValueRow) (p : Nat × PullRequestData) :
    addStep lk aid vs p = vs ++
      (if strTruthy p.2.github_username then
        [mkValueRow lk aid p.2 (p.2.github_username.getD "")] else []) := by
  cases hu : p.2.github_username with
  | none => simp [addStep, strTruthy, hu]
  | some u =>
    by_cases h : u = ""
    · subst h; simp [addStep, strTruthy, hu]
    · simp [addStep, strTruthy, hu, h]

theorem add_records_go (lk : String → Option Nat) (aid : Nat)
    (prs : List (Nat × PullRequestData)) :
    ∀ vs, prs.foldl (addStep lk aid) vs = vs ++
      (prs.filter (fun p => strTruthy p.2.github_username)).map
        (fun p => mkValueRow lk aid p.2 (p.2.github_username.getD "")) := by
  induction prs with
  | nil => intro vs; simp
  | cons p rest ih =>
    intro vs
    rw [List.foldl_cons, List.filter_cons, addStep_eq]
    by_cases h : strTruthy p.2.github_username
    · rw [if_pos h, if_pos h, ih]
      simp
    · rw [if_neg h, if_neg h, List.append_nil, ih]

theorem add_records_eq (lk : String → Option Nat) (aid : Nat)
    (prs : List (Nat × PullRequestData)) :
    add_assignment_submissions_records lk aid prs =
      (prs.filter (fun p => strTruthy p.2.github_username)).map
        (fun p => mkValueRow lk aid p.2 (p.2.github_username.getD "")) := by
  unfold add_assignment_submissions_records
  rw [add_records_go]
  simp

/-- C9: the persistence-value builder emits one row per pull request whose
stored `github_username` is present and non-empty, in dict order, and
silently drops every record whose username is missing or empty. -/
theorem C9_rows_require_username (lk : String → Option Nat) (aid : Nat)
    (prs : List (Nat × PullRequestData)) :
    add_assignment_submissions_records lk aid prs =
      (prs.filter (fun p => strTruthy p.2.github_username)).map
        (fun p => mkValueRow lk aid p.2 (p.2.github_username.getD "")) :=
  add_records_eq lk aid prs

/-- C3 fails on the code: a pull request assembled by the pipeline whose
selected run is still `in_progress` but already carries
`conclusion = success` yields `passes_preliminary_checks = true`, because
line 223 consults only the conclusion. -/
theorem C3_counterexample :
    ∃ row ∈ add_assignment_submissions_records sampleLookup 7
        (retrieve_assignment_submission_data inProgressTransport).1,
      row.passes_preliminary_checks = true ∧
      row.pull_request_data.workflow_run.map RunRecord.status = some "in_progress" := by
  decide

/-- C3 amended: for every row handed to the persistence sink,
`passes_preliminary_checks` is true iff the selected workflow run's
`conclusion` equals `success`; the run's `status` is not consulted. -/
theorem C3_passes_iff_conclusion_success (lk : String → Option Nat)
    (aid : Nat) (prs : List (Nat × PullRequestData)) :
    ∀ row ∈ add_assignment_submissions_records lk aid prs,
      (row.passes_preliminary_checks = true ↔
        row.pull_request_data.workflow_run.bind RunRecord.conclusion = some "success") := by
  intro row hrow
  rw [add_records_eq] at hrow
  obtain ⟨p, hp, hrw⟩ := List.mem_map.mp hrow
  rw [← hrw]
  simp [mkValueRow, passesCheck, beq_iff_eq]

/-- Closed instance of `C3_passes_iff_conclusion_success` on a concrete
one-record dict. -/
theorem C3_passes_iff_conclusion_success_witness :
    (mkValueRow sampleLookup 7 samplePRData "student").passes_preliminary_checks = true ↔
      (mkValueRow sampleLookup 7 samplePRData
        "student").pull_request_data.workflow_run.bind RunRecord.conclusion = some "success" :=
  C3_passes_iff_conclusion_success sampleLookup 7 [(1, samplePRData)] _ (by decide)

end Staging

namespace Staging

theorem retrieveStep_skip (t : Transport) (e : PullEntry)
    (acc : List (Nat × PullRequestData)) (h : malformedEntry e) :
    retrieveStep t e acc = .ok acc := by
  rcases h with h | h | h | h
  · cases hs : e.head_sha <;> simp [retrieveStep, h, hs]
  · cases hs : e.head_sha <;> simp [retrieveStep, h, hs]
  · cases hn : e.number <;> simp [retrieveStep, h, hn]
  · cases hn : e.number <;> simp [retrieveStep, h, hn]

theorem retrieveStep_congr (t t' : Transport) (h : t.runs = t'.runs)
    (e : PullEntry) (acc : List (Nat × PullRequestData)) :
    retrieveStep t e acc = retrieveStep t' e acc := by
  unfold retrieveStep
  rw [h]

theorem retrieveStep_error_spec (t : Transport) (e : PullEntry)
    (acc : List (Nat × PullRequestData)) (res : List (Nat × PullRequestData) × Bool)
    (h : retrieveStep t e acc = .error res) :
    ∃ n sha, e.number = some n ∧ e.head_sha = some sha ∧
      res = (dictInsert n (mkPRData e sha) acc, false) := by
  unfold retrieveStep at h
  split at h
  · next n sha hn hs =>
    split at h
    · split at h
      · injection h with h
        exact ⟨n, sha, hn, hs, h.symm⟩
      · split at h <;> cases h
    · cases h
  · cases h

theorem retrieveStep_transport_error (t : Transport) (e : PullEntry)
    (acc : List (Nat × PullRequestData)) (n : Nat) (sha : String)
    (hn : e.number = some n) (h0 : n ≠ 0) (hs : e.head_sha = some sha)
    (hs0 : sha ≠ "") (hr : t.runs n sha = .error ()) :
    retrieveStep t e acc = .error (dictInsert n (mkPRData e sha) acc, false) := by
  simp only [retrieveStep, hn, hs, hr, if_pos (And.intro h0 hs0)]

theorem retrieveStep_no_runs (t : Transport) (e : PullEntry)
    (acc : List (Nat × PullRequestData)) (n : Nat) (sha : String)
    (hn : e.number = some n) (h0 : n ≠ 0) (hs : e.head_sha = some sha)
    (hs0 : sha ≠ "") (hr : t.runs n sha = .ok []) :
    retrieveStep t e acc = .ok (dictInsert n (mkPRData e sha) acc) := by
  simp only [retrieveStep, hn, hs, hr, if_pos (And.intro h0 hs0)]
  rfl

theorem retrieveGo_cons (t : Transport) (e : PullEntry) (rest : List PullEntry)
    (acc : List (Nat × PullRequestData)) :
    retrieveGo t (e :: rest) acc =
      match retrieveStep t e acc with
      | .error res => res
      | .ok acc' => retrieveGo t rest acc' := rfl

theorem retrieveGo_congr (t t' : Transport) (h : t.runs = t'.runs) :
    ∀ (l : List PullEntry) (acc : List (Nat × PullRequestData)),
      retrieveGo t l acc = retrieveGo t' l acc := by
  intro l
  induction l with
  | nil => intro acc; rfl
  | cons e rest ih =>
    intro acc
    rw [retrieveGo_cons t, retrieveGo_cons t', retrieveStep_congr t t' h]
    cases hstep : retrieveStep t' e acc with
    | error res => rfl
    | ok acc' => exact ih acc'

theorem retrieveGo_skip_middle (t : Transport) (e : PullEntry)
    (h : malformedEntry e) :
    ∀ (pre post : List PullEntry) (acc : List (Nat × PullRequestData)),
      retrieveGo t (pre ++ e :: post) acc = retrieveGo t (pre ++ post) acc := by
  intro pre
  induction pre with
  | nil =>
    intro post acc
    rw [List.nil_append, List.nil_append, retrieveGo_cons, retrieveStep_skip t e acc h]
  | cons p pre ih =>
    intro post acc
    rw [List.cons_append, List.cons_append, retrieveGo_cons, retrieveGo_cons]
    cases hstep : retrieveStep t p acc with
    | error res => rfl
    | ok acc' => exact ih post acc'

theorem retrieveGo_append (t : Transport) :
    ∀ (pre rest : List PullEntry) (acc : List (Nat × PullRequestData)),
      (retrieveGo t pre acc).2 = true →
      retrieveGo t (pre ++ rest) acc = retrieveGo t rest (retrieveGo t pre acc).1 := by
  intro pre
  induction pre with
  | nil => intro rest acc _; rfl
  | cons p pre ih =>
    intro rest acc h
    cases hstep : retrieveStep t p acc with
    | error res =>
      exfalso
      rw [retrieveGo_cons, hstep] at h
      obtain ⟨n, sha, _, _, hres⟩ := retrieveStep_error_spec t p acc res hstep
      rw [hres] at h
      simp at h
    | ok acc' =>
      rw [retrieveGo_cons, hstep] at h
      replace h : (retrieveGo t pre acc').2 = true := h
      simp only [List.cons_append, retrieveGo_cons, hstep]
      exact ih rest acc' h

end Staging

namespace Staging

theorem lookupKey_dictInsert_self (n : Nat) (v : α) (m : List (Nat × α)) :
    lookupKey n (dictInsert n v m) = some v := by
  induction m with
  | nil => simp [dictInsert, lookupKey]
  | cons p rest ih =>
    rcases p with ⟨k, w⟩
    by_cases h : k = n
    · subst h; simp [dictInsert, lookupKey]
    · simp [dictInsert, lookupKey, h, ih]

theorem lookupKey_dictInsert_ne (k n : Nat) (v : α) (m : List (Nat × α))
    (h : k ≠ n) : lookupKey n (dictInsert k v m) = lookupKey n m := by
  induction m with
  | nil => simp [dictInsert, lookupKey, h]
  | cons p rest ih =>
    rcases p with ⟨k', w⟩
    by_cases hk : k' = k
    · subst hk; simp [dictInsert, lookupKey, h]
    · simp [dictInsert, lookupKey, hk, ih]

theorem countKey_dictInsert_ne (k n : Nat) (v : α) (m : List (Nat × α))
    (h : k ≠ n) : countKey n (dictInsert k v m) = countKey n m := by
  induction m with
  | nil => simp [dictInsert, countKey, h]
  | cons p rest ih =>
    rcases p with ⟨k', w⟩
    by_cases hk : k' = k
    · subst hk; simp [dictInsert, countKey, h]
    · simp [dictInsert, countKey, hk, ih]

theorem countKey_dictInsert_fresh (n : Nat) (v : α) (m : List (Nat × α))
    (h : countKey n m = 0) : countKey n (dictInsert n v m) = 1 := by
  induction m with
  | nil => simp [dictInsert, countKey]
  | cons p rest ih =>
    rcases p with ⟨k', w⟩
    by_cases hk : k' = n
    · exfalso
      rw [countKey, if_pos hk] at h
      omega
    · rw [countKey, if_neg hk, Nat.zero_add] at h
      simp [dictInsert, countKey, hk, ih h]

theorem retrieveStep_preserves (t : Transport) (e : PullEntry)
    (acc acc' : List (Nat × PullRequestData)) (n : Nat)
    (hne : e.number ≠ some n) (h : retrieveStep t e acc = .ok acc') :
    lookupKey n acc' = lookupKey n acc ∧ countKey n acc' = countKey n acc := by
  unfold retrieveStep at h
  split at h
  · next n' sha hn hs =>
    have hnn : n' ≠ n := by
      intro he
      subst he
      exact hne hn
    split at h
    · split at h
      · simp at h
      · split at h
        · injection h with h
          rw [← h]
          constructor
          · rw [lookupKey_dictInsert_ne _ _ _ _ hnn, lookupKey_dictInsert_ne _ _ _ _ hnn]
          · rw [countKey_dictInsert_ne _ _ _ _ hnn, countKey_dictInsert_ne _ _ _ _ hnn]
        · injection h with h
          rw [← h]
          constructor
          · rw [lookupKey_dictInsert_ne _ _ _ _ hnn]
          · rw [countKey_dictInsert_ne _ _ _ _ hnn]
    · injection h with h
      rw [← h]
      exact ⟨rfl, rfl⟩
  · injection h with h
    rw [← h]
    exact ⟨rfl, rfl⟩

theorem retrieveGo_preserves (t : Transport) (n : Nat) :
    ∀ (l : List PullEntry) (acc : List (Nat × PullRequestData)),
      (∀ e ∈ l, e.number ≠ some n) →
      lookupKey n (retrieveGo t l acc).1 = lookupKey n acc ∧
      countKey n (retrieveGo t l acc).1 = countKey n acc := by
  intro l
  induction l with
  | nil => intro acc _; exact ⟨rfl, rfl⟩
  | cons e rest ih =>
    intro acc hl
    have hne : e.number ≠ some n := hl e (List.mem_cons_self _ _)
    rw [retrieveGo_cons]
    cases hstep : retrieveStep t e acc with
    | error res =>
      obtain ⟨n', sha, hn', _, hres⟩ := retrieveStep_error_spec t e acc res hstep
      have hnn : n' ≠ n := by
        intro he
        subst he
        exact hne hn'
      have h1 : res.1 = dictInsert n' (mkPRData e sha) acc := by rw [hres]
      constructor
      · show lookupKey n res.1 = lookupKey n acc
        rw [h1]
        exact lookupKey_dictInsert_ne _ _ _ _ hnn
      · show countKey n res.1 = countKey n acc
        rw [h1]
        exact countKey_dictInsert_ne _ _ _ _ hnn
    | ok acc' =>
      obtain ⟨hl1, hc1⟩ := retrieveStep_preserves t e acc acc' n hne hstep
      obtain ⟨hl2, hc2⟩ := ih acc' (fun e' he' => hl e' (List.mem_cons_of_mem _ he'))
      exact ⟨hl2.trans hl1, hc2.trans hc1⟩

/-- C4: a raw pull-request entry with a null or falsy PR number or head SHA
yields no record and raises nothing: the pipeline's result is exactly the
result of running it on the same input with the malformed entry removed, so
the remaining entries are processed normally. -/
theorem C4_malformed_entry_skipped (t t' : Transport) (pre post : List PullEntry)
    (e : PullEntry) (hmal : malformedEntry e)
    (ht : t.pulls = .ok (pre ++ e :: post)) (ht' : t'.pulls = .ok (pre ++ post))
    (hruns : t.runs = t'.runs) :
    retrieve_assignment_submission_data t = retrieve_assignment_submission_data t' := by
  have hred : retrieve_assignment_submission_data t = retrieveGo t (pre ++ e :: post) [] := by
    unfold retrieve_assignment_submission_data
    rw [ht]
  have hred' : retrieve_assignment_submission_data t' = retrieveGo t' (pre ++ post) [] := by
    unfold retrieve_assignment_submission_data
    rw [ht']
  rw [hred, hred', retrieveGo_congr t t' hruns]
  exact retrieveGo_skip_middle t' e hmal pre post []

/-- Closed instance of `C4_malformed_entry_skipped`: one entry with a null
head SHA behaves like an empty pull-request list. -/
theorem C4_malformed_entry_skipped_witness :
    retrieve_assignment_submission_data noShaTransport =
      retrieve_assignment_submission_data emptyPullsTransport :=
  C4_malformed_entry_skipped noShaTransport emptyPullsTransport [] [] noShaPull
    (Or.inr (Or.inr (Or.inl rfl))) rfl rfl rfl

/-- C8: a well-formed pull request whose head commit has zero locatable
workflow runs still gets exactly one record in the assignment's
`pull_requests` dict, with the empty `workflow_run` and a
`passes_preliminary_checks` value of false at persistence time. -/
theorem C8_no_runs_still_one_record (t : Transport) (pre post : List PullEntry)
    (e : PullEntry) (n : Nat) (sha : String)
    (hn : e.number = some n) (h0 : n ≠ 0) (hs : e.head_sha = some sha)
    (hs0 : sha ≠ "") (hr : t.runs n sha = .ok [])
    (hpulls : t.pulls = .ok (pre ++ e :: post))
    (hpre : (retrieveGo t pre []).2 = true)
    (hothers : ∀ e' ∈ pre ++ post, e'.number ≠ some n) :
    lookupKey n (retrieve_assignment_submission_data t).1 = some (mkPRData e sha) ∧
    countKey n (retrieve_assignment_submission_data t).1 = 1 ∧
    (mkPRData e sha).workflow_run = none ∧
    passesCheck (mkPRData e sha).workflow_run = false := by
  have hpre' : ∀ e' ∈ pre, e'.number ≠ some n :=
    fun e' he' => hothers e' (List.mem_append_left _ he')
  have hpost' : ∀ e' ∈ post, e'.number ≠ some n :=
    fun e' he' => hothers e' (List.mem_append_right _ he')
  have hred : retrieve_assignment_submission_data t = retrieveGo t (pre ++ e :: post) [] := by
    unfold retrieve_assignment_submission_data
    rw [hpulls]
  rw [hred, retrieveGo_append t pre (e :: post) [] hpre, retrieveGo_cons,
    retrieveStep_no_runs t e _ n sha hn h0 hs hs0 hr]
  obtain ⟨hlm, hcm⟩ := retrieveGo_preserves t n pre [] hpre'
  obtain ⟨hlp, hcp⟩ :=
    retrieveGo_preserves t n post (dictInsert n (mkPRData e sha) (retrieveGo t pre []).1) hpost'
  refine ⟨?_, ?_, rfl, rfl⟩
  · show lookupKey n
      (retrieveGo t post (dictInsert n (mkPRData e sha) (retrieveGo t pre []).1)).1 = _
    rw [hlp]
    exact lookupKey_dictInsert_self _ _ _
  · show countKey n
      (retrieveGo t post (dictInsert n (mkPRData e sha) (retrieveGo t pre []).1)).1 = 1
    rw [hcp]
    exact countKey_dictInsert_fresh _ _ _ (hcm.trans rfl)

/-- Closed instance of `C8_no_runs_still_one_record` on a transport whose
single pull request has zero workflow runs. -/
theorem C8_no_runs_still_one_record_witness :
    lookupKey 1 (retrieve_assignment_submission_data noRunsTransport).1 =
      some (mkPRData (samplePull 1 "abc") "abc") ∧
    countKey 1 (retrieve_assignment_submission_data noRunsTransport).1 = 1 ∧
    (mkPRData (samplePull 1 "abc") "abc").workflow_run = none ∧
    passesCheck (mkPRData (samplePull 1 "abc") "abc").workflow_run = false :=
  C8_no_runs_still_one_record noRunsTransport [] [] (samplePull 1 "abc") 1 "abc"
    rfl (by decide) rfl (by decide) rfl rfl rfl (by simp)

/-- C10: when a transport error strikes after some pull requests were
already assembled, `retrieve_assignment_submission_data` reports failure
but the state of the caller's `pull_requests` dict keeps every record built
before the failure, including the failing entry's record with its empty
`workflow_run` — nothing is rolled back. -/
theorem C10_partial_state_kept_on_failure (t : Transport) (pre post : List PullEntry)
    (e : PullEntry) (n : Nat) (sha : String)
    (hn : e.number = some n) (h0 : n ≠ 0) (hs : e.head_sha = some sha)
    (hs0 : sha ≠ "") (hr : t.runs n sha = .error ())
    (hpulls : t.pulls = .ok (pre ++ e :: post))
    (hpre : (retrieveGo t pre []).2 = true) :
    retrieve_assignment_submission_data t =
      (dictInsert n (mkPRData e sha) (retrieveGo t pre []).1, false) := by
  have hred : retrieve_assignment_submission_data t = retrieveGo t (pre ++ e :: post) [] := by
    unfold retrieve_assignment_submission_data
    rw [hpulls]
  rw [hred, retrieveGo_append t pre (e :: post) [] hpre, retrieveGo_cons,
    retrieveStep_transport_error t e _ n sha hn h0 hs hs0 hr]

/-- Closed instance of `C10_partial_state_kept_on_failure`: the first pull
request's record survives the transport error on the second. -/
theorem C10_partial_state_kept_on_failure_witness :
    retrieve_assignment_submission_data midFailTransport =
      (dictInsert 2 (mkPRData (samplePull 2 "xyz") "xyz")
        (retrieveGo midFailTransport [samplePull 1 "abc"] []).1, false) :=
  C10_partial_state_kept_on_failure midFailTransport [samplePull 1 "abc"] []
    (samplePull 2 "xyz") 2 "xyz" rfl (by decide) rfl (by decide) rfl rfl (by decide)

end Staging

namespace Staging

theorem fetch_cons_true {α : Type} (body : List α) (rest : List (List α × Bool))
    (h : body ≠ []) :
    fetch_pull_requests_model ((body, true) :: rest) =
      body ++ fetch_pull_requests_model rest := by
  cases body with
  | nil => exact absurd rfl h
  | cons a l => rfl

theorem fetchPages_complete {α : Type} (sz : Nat) (hsz : 0 < sz) :
    ∀ (k : Nat) (items : List α), items.length ≤ k →
      fetch_pull_requests_model (mkPages sz items) = items := by
  intro k
  induction k with
  | zero =>
    intro items hle
    have hnil : items = [] := List.eq_nil_of_length_eq_zero (Nat.le_zero.mp hle)
    subst hnil
    rw [mkPages]
    simp [fetch_pull_requests_model]
  | succ k ihk =>
    intro items hle
    rw [mkPages]
    by_cases hc : sz = 0 ∨ items.length ≤ sz
    · rw [if_pos hc]
      cases items with
      | nil => rfl
      | cons a l => simp [fetch_pull_requests_model]
    · rw [if_neg hc]
      push_neg at hc
      have hlen : sz < items.length := hc.2
      have hine : items ≠ [] := by
        intro h
        rw [h] at hlen
        simp at hlen
      have htk : items.take sz ≠ [] := by
        intro h
        rcases List.take_eq_nil_iff.mp h with h0 | h0
        · exact hc.1 h0
        · exact hine h0
      have hdrop : (items.drop sz).length ≤ k := by
        rw [List.length_drop]
        omega
      rw [fetch_cons_true _ _ htk, ihk (items.drop sz) hdrop]
      exact List.take_append_drop sz items

theorem mkPages_length {α : Type} (sz : Nat) (hsz : 0 < sz) :
    ∀ (k : Nat) (items : List α), items.length ≤ k → items ≠ [] →
      (mkPages sz items).length = (items.length + sz - 1) / sz := by
  intro k
  induction k with
  | zero =>
    intro items hle hne
    exact absurd (List.eq_nil_of_length_eq_zero (Nat.le_zero.mp hle)) hne
  | succ k ihk =>
    intro items hle hne
    have hpos : 0 < items.length := List.length_pos.mpr hne
    rw [mkPages]
    by_cases hc : sz = 0 ∨ items.length ≤ sz
    · rw [if_pos hc]
      have hle' : items.length ≤ sz := hc.resolve_left (Nat.pos_iff_ne_zero.mp hsz)
      show 1 = (items.length + sz - 1) / sz
      symm
      apply Nat.div_eq_of_lt_le
      · omega
      · omega
    · rw [if_neg hc]
      push_neg at hc
      have hlen : sz < items.length := hc.2
      have hdrop : (items.drop sz).length ≤ k := by
        rw [List.length_drop]
        omega
      have hdne : items.drop sz ≠ [] := by
        intro h
        have := congrArg List.length h
        rw [List.length_drop] at this
        simp at this
        omega
      rw [List.length_cons, ihk (items.drop sz) hdrop hdne, List.length_drop]
      have h1 : items.length - sz + sz - 1 = items.length - 1 := by omega
      have h2 : items.length + sz - 1 = (items.length - 1) + sz := by omega
      rw [h1, h2, Nat.add_div_right _ hsz]

/-- C5: the pagination loop of `fetch_pull_requests`, run against a mocked
paginated resource of N items split across ceil(N / sz) pages, returns
exactly the N items in page order; it continues to the next page exactly
while the current body is non-empty and the next-link indicator is present,
which is what `fetch_pull_requests_model` and `mkPages` encode. -/
theorem C5_pagination_completeness {α : Type} (sz : Nat) (hsz : 0 < sz)
    (items : List α) :
    fetch_pull_requests_model (mkPages sz items) = items ∧
    (items ≠ [] → (mkPages sz items).length = (items.length + sz - 1) / sz) :=
  ⟨fetchPages_complete sz hsz items.length items (Nat.le_refl _),
   fun hne => mkPages_length sz hsz items.length items (Nat.le_refl _) hne⟩

/-- Closed instance of `C5_pagination_completeness`: three items at page
size two come back complete across two pages. -/
theorem C5_pagination_completeness_witness :
    fetch_pull_requests_model (mkPages 2 [1, 2, 3]) = [1, 2, 3] ∧
    ([1, 2, 3] ≠ ([] : List Nat) →
      (mkPages 2 [1, 2, 3]).length = ([1, 2, 3].length + 2 - 1) / 2) :=
  C5_pagination_completeness 2 (by decide) [1, 2, 3]

end Staging

namespace Staging

theorem mainLoop_ok (tFor : Nat → Transport) (lk : String → Option Nat) :
    ∀ l : List (Nat × AssignmentData),
      (∀ p ∈ l, strTruthy p.2.github_org = true ∧ strTruthy p.2.repo_name = true) →
      mainLoop tFor lk l =
        .ok (l.foldr (fun p acc => assignmentValues tFor lk p.1 ++ acc) []) := by
  intro l
  induction l with
  | nil => intro _; rfl
  | cons p rest ih =>
    intro hl
    rcases p with ⟨aid, ad⟩
    have hp := hl (aid, ad) (List.mem_cons_self _ _)
    have ihh := ih (fun q hq => hl q (List.mem_cons_of_mem _ hq))
    simp [mainLoop, hp.1, hp.2, ihh]

/-- C6: a transport failure while processing one assignment's pull
requests makes that assignment contribute no rows (it is reported failed
and its remaining pull requests are abandoned inside
`retrieve_assignment_submission_data`), while the batch still succeeds with
every assignment's own contribution computed independently. -/
theorem C6_transport_failure_isolated (tFor : Nat → Transport)
    (lk : String → Option Nat) (l : List (Nat × AssignmentData))
    (hok : ∀ p ∈ l, strTruthy p.2.github_org = true ∧ strTruthy p.2.repo_name = true)
    (aid : Nat) (ad : AssignmentData) (hmem : (aid, ad) ∈ l)
    (hfail : (retrieve_assignment_submission_data (tFor aid)).2 = false) :
    mainLoop tFor lk l =
      .ok (l.foldr (fun p acc => assignmentValues tFor lk p.1 ++ acc) []) ∧
    assignmentValues tFor lk aid = [] := by
  refine ⟨mainLoop_ok tFor lk l hok, ?_⟩
  simp [assignmentValues, hfail]

/-- Closed instance of `C6_transport_failure_isolated`: assignment 1's
transport fails, assignment 2 still contributes its rows. -/
theorem C6_transport_failure_isolated_witness :
    mainLoop mixedTFor sampleLookup [(1, goodAssignment), (2, goodAssignment)] =
      .ok ([(1, goodAssignment), (2, goodAssignment)].foldr
        (fun p acc => assignmentValues mixedTFor sampleLookup p.1 ++ acc) []) ∧
    assignmentValues mixedTFor sampleLookup 1 = [] :=
  C6_transport_failure_isolated mixedTFor sampleLookup
    [(1, goodAssignment), (2, goodAssignment)] (by decide) 1 goodAssignment
    (by decide) (by decide)

/-- C7 fails on the code: an assignment with a null organization makes
`main` raise `ValueError`, aborting the whole batch, so the following valid
assignment — which alone would contribute a row — is never processed. -/
theorem C7_counterexample :
    mainLoop goodTFor sampleLookup [(1, badAssignment), (2, goodAssignment)] =
      .error "Missing GitHub organization or repository name." ∧
    mainLoop goodTFor sampleLookup [(2, goodAssignment)] =
      .ok (assignmentValues goodTFor sampleLookup 2 ++ []) ∧
    assignmentValues goodTFor sampleLookup 2 ≠ [] := by
  refine ⟨rfl, rfl, by decide⟩

theorem mainLoop_error_aux (tFor : Nat → Transport) (lk : String → Option Nat)
    (post : List (Nat × AssignmentData)) (bad : Nat × AssignmentData)
    (hbad : strTruthy bad.2.github_org = false ∨ strTruthy bad.2.repo_name = false) :
    ∀ pre : List (Nat × AssignmentData),
      (∀ p ∈ pre, strTruthy p.2.github_org = true ∧ strTruthy p.2.repo_name = true) →
      mainLoop tFor lk (pre ++ bad :: post) =
        .error "Missing GitHub organization or repository name." := by
  intro pre
  induction pre with
  | nil =>
    intro _
    rcases bad with ⟨aid, ad⟩
    rcases hbad with h | h <;> simp [mainLoop, h]
  | cons p pre ih =>
    intro hl
    rcases p with ⟨aid, ad⟩
    have hp := hl (aid, ad) (List.mem_cons_self _ _)
    have ihh := ih (fun q hq => hl q (List.mem_cons_of_mem _ hq))
    simp [mainLoop, hp.1, hp.2, ihh]

/-- C7 amended: an assignment record with a missing (null or empty)
organization or repository raises the uncaught
`ValueError('Missing GitHub organization or repository name.')`, which
aborts the entire batch: no assignment is persisted and the assignments
after the bad one are never processed. -/
theorem C7_missing_org_aborts_batch (tFor : Nat → Transport)
    (lk : String → Option Nat) (pre post : List (Nat × AssignmentData))
    (bad : Nat × AssignmentData)
    (hbad : strTruthy bad.2.github_org = false ∨ strTruthy bad.2.repo_name = false)
    (hpre : ∀ p ∈ pre, strTruthy p.2.github_org = true ∧ strTruthy p.2.repo_name = true) :
    mainLoop tFor lk (pre ++ bad :: post) =
      .error "Missing GitHub organization or repository name." :=
  mainLoop_error_aux tFor lk post bad hbad pre hpre

/-- Closed instance of `C7_missing_org_aborts_batch` on a two-assignment
batch whose first record lacks the organization. -/
theorem C7_missing_org_aborts_batch_witness :
    mainLoop goodTFor sampleLookup ([] ++ (1, badAssignment) :: [(2, goodAssignment)]) =
      .error "Missing GitHub organization or repository name." :=
  C7_missing_org_aborts_batch goodTFor sampleLookup [] [(2, goodAssignment)]
    (1, badAssignment) (Or.inl rfl) (by simp)

end Staging
